import Mathlib

/-!
Verification development for the jellyfin-todoist-manager service.

The Python sources are shallowly embedded:
* Python strings are embedded as `List Char` where character-level
  manipulation matters (time parsing), and as `String` where only
  equality is observed (identifiers, names).
* Network calls are modelled by oracle inputs: each workflow takes an
  environment record holding the outcome the remote service would
  return for each call the code makes, and produces a record of the
  externally visible actions it performed.
* SQLite state is an explicit list of rows.
-/

namespace JellyTodo

/-! ## Python primitives -/

/-- Truthiness of a Python `str`-or-`None` value: `None` and the empty
string are falsy. -/
def truthy (o : Option String) : Bool :=
  match o with
  | some s => s ≠ ""
  | none => false

/-- Python `a or b` on `str`-or-`None` values: returns `a` when `a` is
truthy, otherwise `b`. -/
def pyOr (a b : Option String) : Option String :=
  if truthy a then a else b

/-- Value of a decimal digit character. -/
def digitVal (c : Char) : Nat :=
  c.toNat - 48

/-- Decimal value of a digit string (used by the embedding of Python
`int`): `none` unless the list is a nonempty run of decimal digits. -/
def parseDigits (cs : List Char) : Option Nat :=
  if cs ≠ [] ∧ cs.all Char.isDigit then
    some (cs.foldl (fun acc c => acc * 10 + digitVal c) 0)
  else none

/-- Strip leading and trailing spaces, as Python `int` does before
reading the number. -/
def stripSpaces (cs : List Char) : List Char :=
  (((cs.dropWhile (· = ' ')).reverse).dropWhile (· = ' ')).reverse

/-- Sign-and-digits part of the embedding of Python `int`. -/
def pyIntCore : List Char → Option Int
  | [] => none
  | c :: rest =>
    if c = '-' then (parseDigits rest).map (fun n => -(n : Int))
    else if c = '+' then (parseDigits rest).map (fun n => (n : Int))
    else (parseDigits (c :: rest)).map (fun n => (n : Int))

/-- Embedding of Python `int(s)` on the inputs relevant here: optional
surrounding spaces, an optional sign, then a nonempty decimal digit
run; `none` models the `ValueError` Python raises otherwise.
(Python also accepts underscores between digits; that extension is not
exercised by any claim and is omitted.) -/
def pyInt (cs : List Char) : Option Int :=
  pyIntCore (stripSpaces cs)

/-- Helper for `splitOnColon`: `acc` holds the current segment reversed. -/
def splitOnColonAux : List Char → List Char → List (List Char)
  | [], acc => [acc.reverse]
  | c :: rest, acc =>
    if c = ':' then acc.reverse :: splitOnColonAux rest []
    else splitOnColonAux rest (c :: acc)

/-- Embedding of Python `s.split(':')`: splits into the (possibly
empty) segments between colons; the empty string yields `[[]]`. -/
def splitOnColon (cs : List Char) : List (List Char) :=
  splitOnColonAux cs []

/-! ## src/utils.py -/

/-- `hours * 3600 + minutes * 60 + seconds` when all three segments
parsed, `none` as soon as one raised. -/
def seg3 : Option Int → Option Int → Option Int → Option Int
  | some hh, some mm, some ss => some (hh * 3600 + mm * 60 + ss)
  | _, _, _ => none

/-- `minutes * 60 + seconds` when both segments parsed. -/
def seg2 : Option Int → Option Int → Option Int
  | some mm, some ss => some (mm * 60 + ss)
  | _, _ => none

/-- Dispatch on the segment count produced by the split. -/
def parseSegs : List (List Char) → Option Int
  | [h, m, s] => seg3 (pyInt h) (pyInt m) (pyInt s)
  | [m, s] => seg2 (pyInt m) (pyInt s)
  | _ => none

/-- Embedding of `parse_time_string` (src/utils.py): split on `:`;
three segments mean `HH:MM:SS`, two mean `MM:SS`; every segment goes
through Python `int`; any other segment count, or a segment `int`
rejects, yields `None`. -/
def parse_time_string (time_str : List Char) : Option Int :=
  if time_str = [] then none
  else parseSegs (splitOnColon time_str)

/-- A time string is malformed exactly when its segment count is
neither 2 nor 3 or some segment is not `int`-parsable (this includes
the empty string, whose single segment is empty). -/
def malformedTime (cs : List Char) : Prop :=
  ((splitOnColon cs).length ≠ 3 ∧ (splitOnColon cs).length ≠ 2) ∨
    ∃ p ∈ splitOnColon cs, pyInt p = none

/-- Decimal digit list of `n`, most significant first. -/
def natToDigits (n : Nat) : List Char :=
  if _h : n < 10 then [Nat.digitChar n]
  else natToDigits (n / 10) ++ [Nat.digitChar (n % 10)]
decreasing_by exact Nat.div_lt_self (by omega) (by omega)

/-- Render `n` zero-padded to at least two digits, as `"%02d" % n`. -/
def pad2 (n : Nat) : List Char :=
  if n < 10 then '0' :: natToDigits n else natToDigits n

/-- Modelled from the spec: the spec's `format(seconds)` has no
counterpart under src; renders a second count in the `HH:MM:SS` shape
`parse_time_string` accepts, each field zero-padded to two digits. -/
def formatHMS (n : Nat) : List Char :=
  pad2 (n / 3600) ++ [':'] ++ pad2 (n % 3600 / 60) ++ [':'] ++ pad2 (n % 60)

/-- Modelled from the spec: the `MM:SS` rendering of a second count,
companion of `formatHMS`. -/
def formatMS (n : Nat) : List Char :=
  pad2 (n / 60) ++ [':'] ++ pad2 (n % 60)

/-- Embedding of `get_series_name` (src/utils.py) over the event
fields it reads. `itemType` carries the value of
`data.get('ItemType', '')`; the optional fields are `None` when the
key is absent. -/
def get_series_name (itemType : String) (seriesName itemName : Option String) : String :=
  if itemType = "Episode" ∧ seriesName.getD "" ≠ "" then seriesName.getD ""
  else itemName.getD "Unknown"

/-! ## src/database.py -/

/-- One row of the `item_mappings` table. -/
structure MappingRow where
  rowid : Nat
  jellyfin_item_id : String
  todoist_item_id : String
  created_at : Nat
  completed_at : Option Nat
deriving DecidableEq, Repr

/-- The `item_mappings` table plus its AUTOINCREMENT counter. -/
structure MappingDB where
  rows : List MappingRow
  nextRowid : Nat
deriving DecidableEq, Repr

/-- The freshly initialised database (`init_database`). -/
def initDB : MappingDB :=
  { rows := [], nextRowid := 1 }

/-- Embedding of `save_mapping` (src/database.py): `INSERT OR REPLACE`
keyed by the UNIQUE column `jellyfin_item_id` first deletes every
conflicting row, then inserts a fresh row whose `created_at` takes the
column default (`now`) and whose `completed_at` is NULL. -/
def save_mapping (db : MappingDB) (now : Nat) (jid tid : String) : MappingDB :=
  { rows := db.rows.filter (fun r => r.jellyfin_item_id ≠ jid) ++
      [{ rowid := db.nextRowid, jellyfin_item_id := jid, todoist_item_id := tid,
         created_at := now, completed_at := none }] ,
    nextRowid := db.nextRowid + 1 }

/-- Embedding of `get_todoist_item_id` (src/database.py). -/
def get_todoist_item_id (db : MappingDB) (jid : String) : Option String :=
  (db.rows.find? (fun r => r.jellyfin_item_id = jid)).map (·.todoist_item_id)

/-- Embedding of `mark_completed` (src/database.py): sets
`completed_at` on every row of the key; reports whether a row matched. -/
def mark_completed (db : MappingDB) (now : Nat) (jid : String) : MappingDB × Bool :=
  ({ db with
      rows := db.rows.map (fun r =>
        if r.jellyfin_item_id = jid then { r with completed_at := some now } else r) },
   db.rows.any (fun r => r.jellyfin_item_id = jid))

/-- The Mapping Store invariant: at most one row per external item id. -/
def mappingUnique (db : MappingDB) : Prop :=
  ∀ jid : String, (db.rows.filter (fun r => r.jellyfin_item_id = jid)).length ≤ 1

/-- A sequence of saves applied in order; each triple is
(timestamp, jellyfin id, todoist id). -/
def runSaves (db : MappingDB) (saves : List (Nat × String × String)) : MappingDB :=
  saves.foldl (fun d s => save_mapping d s.1 s.2.1 s.2.2) db

/-! ## src/todoist.py: `TodoistClient.complete_task`

The HTTP outcome of the single POST the method makes is an oracle
input: `none` models a `requests` exception with no response (network
failure), `some status` a response with that status code.
`raise_for_status` raises exactly for status codes in 400..599. -/

/-- Embedding of `TodoistClient.complete_task` (src/todoist.py): one
POST to the close endpoint; any `RequestException` — including every
4xx/5xx response via `raise_for_status` — is caught and reported as
`False`; there is no retry and no special case for 400-class codes. -/
def complete_task (resp : Option Nat) : Bool :=
  match resp with
  | none => false
  | some status => if 400 ≤ status ∧ status < 600 then false else true

/-! ## src/main.py: `receive_webhook` -/

/-- What `json.loads` plus the `.get` accesses see in the request
body: `invalid` models a `JSONDecodeError`; `nonObject` a structurally
valid JSON body that is not an object (so `webhook_data.get` raises
`AttributeError`); `jsonObject nt` a JSON object whose
`NotificationType` value defaults to `""`. -/
inductive ParsedBody where
  | invalid : ParsedBody
  | nonObject : ParsedBody
  | jsonObject (notificationType : String) : ParsedBody
deriving DecidableEq, Repr

/-- Embedding of `receive_webhook` (src/main.py), returning the HTTP
status code of the response. `handlerRaises` is the oracle for whether
the dispatched handler lets an exception escape (the handlers do leak
exceptions: for example `requests.post` inside
`get_archived_section_by_name` and the SDK calls inside
`is_section_empty` run outside any `try`). A `JSONDecodeError` yields
400; any other exception from the body is caught by the generic
handler and yields 500; otherwise the endpoint returns 200. -/
def receive_webhook (body : ParsedBody) (handlerRaises : Bool) : Nat :=
  match body with
  | .invalid => 400
  | .nonObject => 500
  | .jsonObject nt =>
    if (nt = "ItemAdded" ∨ nt = "PlaybackStop") ∧ handlerRaises then 500 else 200

/-! ## src/handlers.py -/

/-- The webhook event fields the two handlers read. Each `.get`-style
field is `none` when absent; `itemType` carries
`data.get('ItemType', '')` directly. The two time fields carry
`data.get(..., '')`, so the empty list models an absent field. -/
structure WebhookEvent where
  itemIdField : Option String
  idField : Option String
  item_idField : Option String
  idLowerField : Option String
  itemType : String
  seriesName : Option String
  itemName : Option String
  runTime : List Char
  playbackPosition : List Char
deriving DecidableEq, Repr

/-- The `ItemId or Id or item_id or id` extraction both handlers use
(Python `or`, so empty strings are skipped). -/
def extractItemId (e : WebhookEvent) : Option String :=
  pyOr (pyOr (pyOr e.itemIdField e.idField) e.item_idField) e.idLowerField

/-- Series name of an event, through `get_series_name`. -/
def eventSeries (e : WebhookEvent) : String :=
  get_series_name e.itemType e.seriesName e.itemName

/-- Oracle outcomes for the remote calls `handle_item_added` makes, in
the order the code makes them. -/
structure AddEnv where
  /-- Result of `get_archived_section_by_name`. -/
  archivedLookup : Option String
  /-- Result of `unarchive_section`. -/
  unarchiveOk : Bool
  /-- Result of `get_or_create_section`. -/
  getOrCreateResult : Option String
  /-- `some id` when the SDK `add_task` returns a task with an id;
  `none` when it raises or returns no id. -/
  addTaskId : Option String
  /-- Result of `save_mapping`. -/
  saveOk : Bool
deriving DecidableEq, Repr

/-- Externally visible actions of one `handle_item_added` run. -/
structure AddResult where
  unarchiveCalled : Bool
  getOrCreateCalled : Bool
  addTaskCalled : Bool
  taskCreated : Bool
  mappingSaved : Bool
deriving DecidableEq, Repr

/-- The run that performed no action. -/
def noAdd : AddResult :=
  { unarchiveCalled := false, getOrCreateCalled := false, addTaskCalled := false,
    taskCreated := false, mappingSaved := false }

/-- Tail of `handle_item_added` once a section id has been resolved:
the `if not section_id` guard, task creation, and the mapping save. -/
def addTaskAndSave (sectionId : Option String) (acc : AddResult) (env : AddEnv) : AddResult :=
  if truthy sectionId = false then acc
  else
    let acc := { acc with addTaskCalled := true }
    match env.addTaskId with
    | none => acc
    | some _tid => { acc with taskCreated := true, mappingSaved := env.saveOk }

/-- Embedding of `handle_item_added` (src/handlers.py): extract the
item id; look for an archived section of the series name — if one
exists, unarchive it and abort the whole run when unarchiving fails
(never falling through to `get_or_create_section`); otherwise resolve
or create the active section; then create the task and save the
mapping. -/
def handle_item_added (e : WebhookEvent) (env : AddEnv) : AddResult :=
  if truthy (extractItemId e) = false then noAdd
  else
    match env.archivedLookup with
    | some sid =>
      if env.unarchiveOk = false then { noAdd with unarchiveCalled := true }
      else addTaskAndSave (some sid) { noAdd with unarchiveCalled := true } env
    | none =>
      addTaskAndSave env.getOrCreateResult { noAdd with getOrCreateCalled := true } env

/-- Oracle outcomes for the remote calls `handle_playback_stop` makes. -/
structure StopEnv where
  /-- Result of the database lookup `get_todoist_item_id`. -/
  mappingLookup : Option String
  /-- Whether the SDK `get_sections` call succeeds. -/
  sectionsOk : Bool
  /-- The (id, name) pairs `get_sections` returns when it succeeds. -/
  sections : List (String × String)
  /-- SDK `complete_task`: `none` when it raises, `some b` its return. -/
  completeOutcome : Option Bool
  /-- `is_section_empty` observation of the k-th confirmation check. -/
  emptyObs : Nat → Bool
  /-- Result of `archive_section`. -/
  archiveOk : Bool

/-- Externally visible actions of one `handle_playback_stop` run. -/
structure StopResult where
  completeCalls : Nat
  closedOk : Bool
  markCompletedCalled : Bool
  emptyChecks : Nat
  archiveCalls : Nat
  archivedOk : Bool
deriving DecidableEq, Repr

/-- The run that performed no action. -/
def noStop : StopResult :=
  { completeCalls := 0, closedOk := false, markCompletedCalled := false,
    emptyChecks := 0, archiveCalls := 0, archivedOk := false }

/-- The completion heuristic of `handle_playback_stop`:
`is_completed = abs(runtime - position) <= 60`. -/
def playback_is_completed (runtime position : Int) : Bool :=
  (runtime - position).natAbs ≤ 60

/-- The archive-confirmation loop of `handle_playback_stop`: up to
`fuel` emptiness checks starting at check index `i`; each check that
observes the section empty stops the loop at once with `true`; a
non-empty observation sleeps 0.5s and retries. Returns the number of
checks made and whether emptiness was observed. -/
def pollEmpty (obs : Nat → Bool) : Nat → Nat → Nat × Bool
  | 0, _ => (0, false)
  | fuel + 1, i =>
    if obs i then (1, true)
    else
      let r := pollEmpty obs fuel (i + 1)
      (r.1 + 1, r.2)

/-- Embedding of `handle_playback_stop` (src/handlers.py): parse the
two time strings (an absent field or a parse failure silently ends the
run); ignore the event unless `|runtime - position| <= 60`; extract
the item id; look up the mapping; resolve the section id by series
name from `get_sections` (an SDK failure just leaves it `None`);
complete the task (an SDK exception makes `closed_ok` false); on
success mark the mapping completed and, when a section id was
resolved, run the confirmation loop and archive once if any check
observed the section empty. -/
def handle_playback_stop (e : WebhookEvent) (env : StopEnv) : StopResult :=
  let rs := if e.runTime ≠ [] then parse_time_string e.runTime else none
  let ps := if e.playbackPosition ≠ [] then parse_time_string e.playbackPosition else none
  match rs, ps with
  | some r, some p =>
    if playback_is_completed r p = false then noStop
    else if truthy (extractItemId e) = false then noStop
    else
      match env.mappingLookup with
      | none => noStop
      | some _tid =>
        let sectionId : Option String :=
          if env.sectionsOk then
            (env.sections.find? (fun s => s.2 = eventSeries e)).map (·.1)
          else none
        let closedOk := (env.completeOutcome.getD false)
        if closedOk = false then { noStop with completeCalls := 1 }
        else
          let base : StopResult :=
            { noStop with completeCalls := 1, closedOk := true, markCompletedCalled := true }
          match sectionId with
          | none => base
          | some _sid =>
            let pe := pollEmpty env.emptyObs 5 0
            if pe.2 then
              { base with emptyChecks := pe.1, archiveCalls := 1, archivedOk := env.archiveOk }
            else { base with emptyChecks := pe.1 }
  | _, _ => noStop

/-! ## src/todoist.py: `TodoistClient.reorder_sections`

A project snapshot is the pair of lists the method fetches: the
sections (with their current integer orders) and the active tasks.
`_parse_created_at` is abstracted away: each task carries the parsed
timestamp directly, with `0` standing for the `0.0` the parser returns
on a missing or unparsable value. Each issued `update_section` call is
modelled as applied (returning `True`), which is what the claims are
about. Python list sort and Mathlib `insertionSort` are both stable,
so the sorted sequences agree. -/

/-- A section as `reorder_sections` sees it. -/
structure TSection where
  id : String
  order : Int
deriving DecidableEq, Repr

/-- An active task as `reorder_sections` sees it: its `section_id`
(`none` for a missing value) and its parsed `created_at`. -/
structure TTask where
  sectionId : Option String
  created_at : Nat
deriving DecidableEq, Repr

/-- The section id the task-scanning loop attributes a task to:
`if not sid: continue` skips missing and empty ids. -/
def taskSid (t : TTask) : Option String :=
  match t.sectionId with
  | none => none
  | some s => if s = "" then none else some s

/-- `has_task_by_section`: whether some active task lies in `sid`. -/
def hasTaskIn (tasks : List TTask) (sid : String) : Bool :=
  tasks.any (fun t => taskSid t = some sid)

/-- `latest_by_section`: the latest `created_at` among the active
tasks of `sid`, accumulated exactly as the loop does (strictly greater
values replace the previous one, starting from the `0.0` default). -/
def latestIn (tasks : List TTask) (sid : String) : Nat :=
  tasks.foldl
    (fun acc t => if taskSid t = some sid ∧ acc < t.created_at then t.created_at else acc) 0

/-- `front_rank`: `-1` when a truthy `front_section_id` equals `sid`. -/
def frontRank (front : Option String) (sid : String) : Int :=
  match front with
  | none => 0
  | some f => if f ≠ "" ∧ sid = f then -1 else 0

/-- `empty_rank`: `1` for a section with no active task, else `0`. -/
def emptyRank (tasks : List TTask) (sid : String) : Nat :=
  if hasTaskIn tasks sid then 0 else 1

/-- The sort key `(front_rank, empty_rank, -latest_ts)`, compared
lexicographically as Python compares the tuple. -/
def sortKey (tasks : List TTask) (front : Option String) (s : TSection) :
    Int ×ₗ (Nat ×ₗ Int) :=
  toLex (frontRank front s.id, toLex (emptyRank tasks s.id, -(latestIn tasks s.id : Int)))

/-- The comparison `reorder_sections` sorts by. -/
def secLE (tasks : List TTask) (front : Option String) (s t : TSection) : Prop :=
  sortKey tasks front s ≤ sortKey tasks front t

instance secLEDecidable (tasks : List TTask) (front : Option String) :
    DecidableRel (secLE tasks front) :=
  fun s t => decidable_of_iff (sortKey tasks front s ≤ sortKey tasks front t) Iff.rfl

instance secLETotal (tasks : List TTask) (front : Option String) :
    IsTotal TSection (secLE tasks front) :=
  ⟨fun s t => le_total (sortKey tasks front s) (sortKey tasks front t)⟩

instance secLETrans (tasks : List TTask) (front : Option String) :
    IsTrans TSection (secLE tasks front) :=
  ⟨fun _ _ _ hab hbc => le_trans hab hbc⟩

/-- The stably sorted section list `sortable` after `sortable.sort`. -/
def sortedSections (secs : List TSection) (tasks : List TTask) (front : Option String) :
    List TSection :=
  List.insertionSort (secLE tasks front) secs

/-- The order updates the enumeration loop issues: the pairs
(section id, new 1-based rank) for exactly the sorted positions whose
current `order` differs from the rank. -/
def reorderUpdates (secs : List TSection) (tasks : List TTask) (front : Option String) :
    List (String × Nat) :=
  (((sortedSections secs tasks front).enum).filter
      (fun p => decide (p.2.order ≠ ((p.1 + 1 : Nat) : Int)))).map
    (fun p => (p.2.id, p.1 + 1))

/-- Embedding of `reorder_sections` (src/todoist.py): `False` on an
empty section list, otherwise whether at least one update was issued
(and, as modelled, applied). -/
def reorder_sections (secs : List TSection) (tasks : List TTask) (front : Option String) :
    Bool :=
  if secs = [] then false
  else !(reorderUpdates secs tasks front).isEmpty

/-- The 1-based rank `reorder_sections` assigns to section id `sid`. -/
def rankOf (secs : List TSection) (tasks : List TTask) (front : Option String)
    (sid : String) : Nat :=
  ((sortedSections secs tasks front).map TSection.id).indexOf sid + 1

/-- The effect of the issued order updates on one section: its order
becomes the updated rank when an update names it. -/
def updFn (ups : List (String × Nat)) (s : TSection) : TSection :=
  match ups.lookup s.id with
  | some r => { s with order := (r : Int) }
  | none => s

/-- The project state after the issued order updates have been
applied: each updated section carries its new order. -/
def applyUpdates (secs : List TSection) (ups : List (String × Nat)) : List TSection :=
  secs.map (updFn ups)

/-! ## Concrete instances used to evaluate the theorems -/

/-- The spec's front-forcing example: sections A, B, C in current
order 1, 2, 3. -/
def secsW : List TSection := [⟨"A", 1⟩, ⟨"B", 2⟩, ⟨"C", 3⟩]

/-- Tasks for the example: A holds one active task, B two (the most
recent ones), C none. -/
def tasksW : List TTask := [⟨some "A", 10⟩, ⟨some "B", 20⟩, ⟨some "B", 30⟩]

/-- A playback-stop event whose position is far from the runtime
(RunTime 00:23:35, PlaybackPosition 00:10:00, difference 815s). -/
def evFar : WebhookEvent :=
  { itemIdField := some "jf1", idField := none, item_idField := none, idLowerField := none,
    itemType := "Episode", seriesName := some "Show", itemName := some "Ep",
    runTime := "00:23:35".toList, playbackPosition := "00:10:00".toList }

/-- A playback-stop event near the end (RunTime 00:23:35,
PlaybackPosition 00:23:00, difference 35s). -/
def evNear : WebhookEvent :=
  { itemIdField := some "jf1", idField := none, item_idField := none, idLowerField := none,
    itemType := "Episode", seriesName := some "Show", itemName := some "Ep",
    runTime := "00:23:35".toList, playbackPosition := "00:23:00".toList }

/-- A stop environment in which the first emptiness check observes an
active task and the second observes the section empty. -/
def envRegain : StopEnv :=
  { mappingLookup := some "td1", sectionsOk := true, sections := [("s1", "Show")],
    completeOutcome := some true, emptyObs := fun i => decide (i ≠ 0), archiveOk := true }

/-- A stop environment in which every emptiness check observes the
section empty. -/
def envAllEmpty : StopEnv :=
  { mappingLookup := some "td1", sectionsOk := true, sections := [("s1", "Show")],
    completeOutcome := some true, emptyObs := fun _ => true, archiveOk := true }

/-- An item-added event for a series with an archived section. -/
def evAdd : WebhookEvent :=
  { itemIdField := some "jf2", idField := none, item_idField := none, idLowerField := none,
    itemType := "Episode", seriesName := some "Show", itemName := some "Ep",
    runTime := [], playbackPosition := [] }

/-- An add environment in which the archived-section lookup finds a
section and unarchiving it fails. -/
def envUnarchFail : AddEnv :=
  { archivedLookup := some "s9", unarchiveOk := false, getOrCreateResult := some "s10",
    addTaskId := some "t9", saveOk := true }

/-- A database holding one completed mapping for item a: the result
of saving a mapping at time 5 and marking it completed at time 7. -/
def dbCompleted : MappingDB :=
  (mark_completed (save_mapping initDB 5 "a" "t1") 7 "a").1

/-! # Helper lemmas: decimal rendering and time parsing -/

theorem digitChar_isDigit {d : Nat} (h : d < 10) : (Nat.digitChar d).isDigit = true := by
  interval_cases d <;> decide

theorem digitChar_ne_colon {d : Nat} (h : d < 10) : Nat.digitChar d ≠ ':' := by
  interval_cases d <;> decide

theorem digitVal_digitChar {d : Nat} (h : d < 10) : digitVal (Nat.digitChar d) = d := by
  interval_cases d <;> decide

theorem natToDigits_spec (n : Nat) :
    natToDigits n ≠ [] ∧ (natToDigits n).all Char.isDigit = true ∧ ':' ∉ natToDigits n := by
  induction n using Nat.strong_induction_on with
  | _ n ih =>
    rw [natToDigits]
    split
    · next h =>
      refine ⟨by simp, by simp [digitChar_isDigit h], ?_⟩
      simp only [List.mem_singleton]
      exact fun hc => digitChar_ne_colon h hc.symm
    · next h =>
      have hlt : n / 10 < n := Nat.div_lt_self (by omega) (by omega)
      obtain ⟨ih1, ih2, ih3⟩ := ih _ hlt
      have h10 : n % 10 < 10 := Nat.mod_lt _ (by omega)
      refine ⟨by simp, ?_, ?_⟩
      · simp [List.all_append, ih2, digitChar_isDigit h10]
      · simp only [List.mem_append, List.mem_singleton]
        rintro (hc | hc)
        · exact ih3 hc
        · exact digitChar_ne_colon h10 hc.symm

theorem foldl_digitsVal (n : Nat) :
    (natToDigits n).foldl (fun acc c => acc * 10 + digitVal c) 0 = n := by
  induction n using Nat.strong_induction_on with
  | _ n ih =>
    rw [natToDigits]
    split
    · next h => simp [digitVal_digitChar h]
    · next h =>
      have hlt : n / 10 < n := Nat.div_lt_self (by omega) (by omega)
      have h10 : n % 10 < 10 := Nat.mod_lt _ (by omega)
      rw [List.foldl_append, ih _ hlt]
      simp only [List.foldl_cons, List.foldl_nil, digitVal_digitChar h10]
      omega

theorem parseDigits_natToDigits (n : Nat) : parseDigits (natToDigits n) = some n := by
  obtain ⟨h1, h2, _⟩ := natToDigits_spec n
  rw [parseDigits, if_pos ⟨h1, h2⟩, foldl_digitsVal]

theorem pad2_spec (n : Nat) :
    pad2 n ≠ [] ∧ (pad2 n).all Char.isDigit = true ∧ ':' ∉ pad2 n := by
  obtain ⟨h1, h2, h3⟩ := natToDigits_spec n
  rw [pad2]
  split
  · refine ⟨by simp, by simp [h2], ?_⟩
    simp only [List.mem_cons]
    rintro (hc | hc)
    · exact absurd hc (by decide)
    · exact h3 hc
  · exact ⟨h1, h2, h3⟩

theorem parseDigits_pad2 (n : Nat) : parseDigits (pad2 n) = some n := by
  rw [pad2]
  split
  · obtain ⟨h1, h2, _⟩ := natToDigits_spec n
    rw [parseDigits, if_pos ⟨by simp, by simp [h2]⟩]
    simp only [List.foldl_cons]
    have : (0 : Nat) * 10 + digitVal '0' = 0 := by decide
    rw [this, foldl_digitsVal]
  · exact parseDigits_natToDigits n

theorem dropWhile_space_of_all_digit (cs : List Char) (h : cs.all Char.isDigit = true) :
    cs.dropWhile (· = ' ') = cs := by
  cases cs with
  | nil => rfl
  | cons c rest =>
    have hc : c.isDigit = true := by
      simp only [List.all_cons, Bool.and_eq_true] at h
      exact h.1
    have hne : ¬(c = ' ') := fun he => by rw [he] at hc; exact absurd hc (by decide)
    simp [List.dropWhile_cons, hne]

theorem stripSpaces_of_all_digit (cs : List Char) (h : cs.all Char.isDigit = true) :
    stripSpaces cs = cs := by
  rw [stripSpaces, dropWhile_space_of_all_digit cs h,
      dropWhile_space_of_all_digit _ (by simpa using h), List.reverse_reverse]

theorem pyInt_pad2 (n : Nat) : pyInt (pad2 n) = some (n : Int) := by
  obtain ⟨h1, h2, _⟩ := pad2_spec n
  have hstrip := stripSpaces_of_all_digit _ h2
  obtain ⟨c, rest, hcr⟩ : ∃ c rest, pad2 n = c :: rest := by
    cases hp : pad2 n with
    | nil => exact absurd hp h1
    | cons c rest => exact ⟨c, rest, rfl⟩
  have hc : c.isDigit = true := by
    rw [hcr] at h2
    simp only [List.all_cons, Bool.and_eq_true] at h2
    exact h2.1
  have hcm : ¬(c = '-') := fun he => by rw [he] at hc; exact absurd hc (by decide)
  have hcp : ¬(c = '+') := fun he => by rw [he] at hc; exact absurd hc (by decide)
  rw [pyInt, hstrip, hcr, pyIntCore, if_neg hcm, if_neg hcp, ← hcr, parseDigits_pad2]
  rfl

theorem splitOnColonAux_no_colon :
    ∀ (xs acc : List Char), ':' ∉ xs → splitOnColonAux xs acc = [acc.reverse ++ xs]
  | [], acc, _ => by simp [splitOnColonAux]
  | c :: rest, acc, h => by
    have hc : ¬(c = ':') := fun he => h (by rw [he]; exact List.mem_cons_self _ _)
    rw [splitOnColonAux, if_neg hc,
        splitOnColonAux_no_colon rest (c :: acc) (fun hm => h (List.mem_cons_of_mem c hm))]
    simp

theorem splitOnColonAux_colon :
    ∀ (xs rest acc : List Char), ':' ∉ xs →
      splitOnColonAux (xs ++ ':' :: rest) acc = (acc.reverse ++ xs) :: splitOnColonAux rest []
  | [], rest, acc, _ => by simp [splitOnColonAux]
  | c :: xs, rest, acc, h => by
    have hc : ¬(c = ':') := fun he => h (by rw [he]; exact List.mem_cons_self _ _)
    rw [List.cons_append, splitOnColonAux, if_neg hc,
        splitOnColonAux_colon xs rest (c :: acc) (fun hm => h (List.mem_cons_of_mem c hm))]
    simp

theorem splitOnColon_three (a b c : List Char) (ha : ':' ∉ a) (hb : ':' ∉ b) (hc : ':' ∉ c) :
    splitOnColon (a ++ [':'] ++ b ++ [':'] ++ c) = [a, b, c] := by
  have he : a ++ [':'] ++ b ++ [':'] ++ c = a ++ ':' :: (b ++ ':' :: c) := by simp
  rw [splitOnColon, he, splitOnColonAux_colon a _ [] ha, splitOnColonAux_colon b c [] hb,
      splitOnColonAux_no_colon c [] hc]
  simp

theorem splitOnColon_two (a b : List Char) (ha : ':' ∉ a) (hb : ':' ∉ b) :
    splitOnColon (a ++ [':'] ++ b) = [a, b] := by
  have he : a ++ [':'] ++ b = a ++ ':' :: b := by simp
  rw [splitOnColon, he, splitOnColonAux_colon a b [] ha, splitOnColonAux_no_colon b [] hb]
  simp

theorem parse_formatHMS (n : Nat) : parse_time_string (formatHMS n) = some (n : Int) := by
  obtain ⟨h1, _, h3⟩ := pad2_spec (n / 3600)
  obtain ⟨_, _, h3b⟩ := pad2_spec (n % 3600 / 60)
  obtain ⟨_, _, h3c⟩ := pad2_spec (n % 60)
  have hne : formatHMS n ≠ [] := by
    rw [formatHMS]
    simp [h1]
  rw [parse_time_string, if_neg hne, formatHMS,
      splitOnColon_three _ _ _ h3 h3b h3c]
  simp only [parseSegs, pyInt_pad2, seg3]
  congr 1
  omega

theorem parse_formatMS (n : Nat) : parse_time_string (formatMS n) = some (n : Int) := by
  obtain ⟨h1, _, h3⟩ := pad2_spec (n / 60)
  obtain ⟨_, _, h3b⟩ := pad2_spec (n % 60)
  have hne : formatMS n ≠ [] := by
    rw [formatMS]
    simp [h1]
  rw [parse_time_string, if_neg hne, formatMS,
      splitOnColon_two _ _ h3 h3b]
  simp only [parseSegs, pyInt_pad2, seg2]
  congr 1
  omega

theorem parse_time_malformed (cs : List Char) (h : malformedTime cs) :
    parse_time_string cs = none := by
  rw [parse_time_string]
  split
  · rfl
  · rw [malformedTime] at h
    rcases hsp : splitOnColon cs with _ | ⟨a, _ | ⟨b, _ | ⟨c, _ | d⟩⟩⟩ <;>
      rw [hsp] at h <;> simp only [parseSegs]
    · -- two segments
      rcases h with ⟨_, hl⟩ | ⟨p, hp, hnone⟩
      · simp at hl
      · simp only [List.mem_cons, List.not_mem_nil, or_false] at hp
        rcases hp with rfl | rfl
        · rw [hnone]
          rfl
        · cases hpa : pyInt a
          · rfl
          · rw [hnone]
            rfl
    · -- three segments
      rcases h with ⟨hl, _⟩ | ⟨p, hp, hnone⟩
      · simp at hl
      · simp only [List.mem_cons, List.not_mem_nil, or_false] at hp
        rcases hp with rfl | rfl | rfl
        · rw [hnone]
          rfl
        · cases hpa : pyInt a
          · rfl
          · rw [hnone]
            rfl
        · cases hpa : pyInt a
          · rfl
          · cases hpb : pyInt b
            · rfl
            · rw [hnone]
              rfl

/-! # Helper lemmas: the Mapping Store -/

theorem save_mapping_filter_self (db : MappingDB) (now : Nat) (jid tid : String) :
    (save_mapping db now jid tid).rows.filter (fun r => r.jellyfin_item_id = jid) =
      [{ rowid := db.nextRowid, jellyfin_item_id := jid, todoist_item_id := tid,
         created_at := now, completed_at := none }] := by
  simp only [save_mapping, List.filter_append]
  have h1 : (db.rows.filter (fun r => r.jellyfin_item_id ≠ jid)).filter
      (fun r => decide (r.jellyfin_item_id = jid)) = [] := by
    rw [List.filter_eq_nil_iff]
    intro r hr
    rw [List.mem_filter] at hr
    simpa using hr.2
  rw [h1]
  simp

theorem save_mapping_unique (db : MappingDB) (now : Nat) (jid tid : String)
    (h : mappingUnique db) : mappingUnique (save_mapping db now jid tid) := by
  intro k
  by_cases hk : k = jid
  · subst hk
    rw [save_mapping_filter_self]
    simp
  · simp only [save_mapping, List.filter_append]
    have h2 : List.filter (fun r => decide (r.jellyfin_item_id = k))
        [({ rowid := db.nextRowid, jellyfin_item_id := jid, todoist_item_id := tid,
            created_at := now, completed_at := none } : MappingRow)] = [] := by
      have hjk : ¬(jid = k) := fun he => hk he.symm
      simp [hjk]
    rw [h2, List.append_nil]
    calc ((db.rows.filter (fun r => r.jellyfin_item_id ≠ jid)).filter
            (fun r => decide (r.jellyfin_item_id = k))).length
        ≤ (db.rows.filter (fun r => decide (r.jellyfin_item_id = k))).length :=
          List.Sublist.length_le ((List.filter_sublist _).filter _)
      _ ≤ 1 := h k

theorem runSaves_unique (saves : List (Nat × String × String)) :
    ∀ db, mappingUnique db → mappingUnique (runSaves db saves) := by
  induction saves with
  | nil => exact fun db h => h
  | cons s rest ih => exact fun db h => ih _ (save_mapping_unique _ _ _ _ h)

theorem initDB_unique : mappingUnique initDB := by
  intro k
  simp [initDB]

theorem get_todoist_item_id_save (db : MappingDB) (now : Nat) (jid tid : String) :
    get_todoist_item_id (save_mapping db now jid tid) jid = some tid := by
  rw [get_todoist_item_id, save_mapping]
  simp only [List.find?_append]
  have h1 : (db.rows.filter (fun r => r.jellyfin_item_id ≠ jid)).find?
      (fun r => r.jellyfin_item_id = jid) = none := by
    rw [List.find?_eq_none]
    intro r hr
    rw [List.mem_filter] at hr
    simpa using hr.2
  rw [h1]
  simp

/-! # Claim theorems -/

/-- C9: for every second count, parsing its `HH:MM:SS` rendering (and
its `MM:SS` rendering) returns exactly that count; every malformed
string — wrong segment count (including the empty string) or a
segment `int` rejects — parses to `None`; the parser is a total
function, so it never raises. -/
theorem parse_time_roundtrip :
    (∀ n : Nat, parse_time_string (formatHMS n) = some (n : Int) ∧
        parse_time_string (formatMS n) = some (n : Int)) ∧
    (∀ cs : List Char, malformedTime cs → parse_time_string cs = none) :=
  ⟨fun n => ⟨parse_formatHMS n, parse_formatMS n⟩, parse_time_malformed⟩

/-- Witness for C9 at 1415 seconds (= 00:23:35) and at the malformed
string ab:cd. -/
theorem parse_time_roundtrip_witness :
    parse_time_string (formatHMS 1415) = some (1415 : Int) ∧
    parse_time_string (String.toList "ab:cd") = none :=
  ⟨(parse_time_roundtrip.1 1415).1,
   parse_time_roundtrip.2 (String.toList "ab:cd")
     (Or.inr ⟨String.toList "ab", by decide, by decide⟩)⟩

/-- C6: saving the same external id twice with different remote ids
leaves exactly one row for that id, holding the latest remote id; and
after every sequence of saves from the initialised database, at most
one mapping per external item id exists. -/
theorem mapping_upsert_spec :
    (∀ (db : MappingDB) (now1 now2 : Nat) (jid tid1 tid2 : String),
      (((save_mapping (save_mapping db now1 jid tid1) now2 jid tid2).rows.filter
          (fun r => r.jellyfin_item_id = jid)).length = 1 ∧
        get_todoist_item_id (save_mapping (save_mapping db now1 jid tid1) now2 jid tid2) jid
          = some tid2)) ∧
    (∀ saves : List (Nat × String × String), mappingUnique (runSaves initDB saves)) := by
  constructor
  · intro db now1 now2 jid tid1 tid2
    refine ⟨?_, get_todoist_item_id_save _ _ _ _⟩
    rw [save_mapping_filter_self]
    rfl
  · exact fun saves => runSaves_unique saves initDB initDB_unique

/-- C10: re-saving a mapping for an external id whose stored row has a
completion marker leaves the stored row for that id with NULL
`completed_at` and a fresh `created_at`: the REPLACE deletes the old
row and inserts a new one carrying only the id fields. -/
theorem save_mapping_resets_completion (db : MappingDB) (now : Nat) (jid tid : String)
    (_hprev : ∃ r ∈ db.rows, r.jellyfin_item_id = jid ∧ r.completed_at ≠ none) :
    (save_mapping db now jid tid).rows.filter (fun r => r.jellyfin_item_id = jid) =
      [{ rowid := db.nextRowid, jellyfin_item_id := jid, todoist_item_id := tid,
         created_at := now, completed_at := none }] :=
  save_mapping_filter_self db now jid tid

/-- Witness for C10: item a was saved at time 5 and completed at
time 7; re-saving it at time 9 leaves one row with no completion. -/
theorem save_mapping_resets_completion_witness :
    (save_mapping dbCompleted 9 "a" "t2").rows.filter (fun r => r.jellyfin_item_id = "a") =
      [{ rowid := dbCompleted.nextRowid, jellyfin_item_id := "a", todoist_item_id := "t2",
         created_at := 9, completed_at := none }] :=
  save_mapping_resets_completion dbCompleted 9 "a" "t2"
    ⟨{ rowid := 1, jellyfin_item_id := "a", todoist_item_id := "t1",
       created_at := 5, completed_at := some 7 }, by decide, by decide, by decide⟩

/-- C3 counterexample: a 400-class response makes `complete_task`
report failure, not the success the claim states. -/
theorem complete_task_400_cx :
    complete_task (some 400) = false ∧ complete_task (some 404) = false := by
  decide

/-- C3 amended: `complete_task` reports success iff a response arrived
with a status outside 400..599 — a 400-class response is reported as a
failure exactly like any other error — and no failure is retried
within the call (the playback-stop workflow issues at most one
completion request per run). -/
theorem complete_task_amended :
    (∀ resp : Option Nat, complete_task resp = true ↔
      ∃ s, resp = some s ∧ (s < 400 ∨ 600 ≤ s)) ∧
    (∀ (e : WebhookEvent) (env : StopEnv), (handle_playback_stop e env).completeCalls ≤ 1) := by
  constructor
  · intro resp
    cases resp with
    | none => simp [complete_task]
    | some s =>
      rw [complete_task]
      by_cases h : 400 ≤ s ∧ s < 600
      · rw [if_pos h]
        simp only [Bool.false_eq_true, false_iff]
        rintro ⟨t, ht, hr⟩
        cases ht
        omega
      · rw [if_neg h]
        simp only [true_iff]
        exact ⟨s, rfl, by omega⟩
  · intro e env
    unfold handle_playback_stop
    dsimp only
    repeat' split
    all_goals simp [noStop]

/-- C4 counterexample: a structurally valid JSON body whose event
handling raises (which `get_archived_section_by_name` and
`is_section_empty` can do, as they run outside any `try`) yields a 500
response — not the success the claim says valid JSON always gets. -/
theorem receive_webhook_cx :
    receive_webhook (ParsedBody.jsonObject "ItemAdded") true = 500 ∧ (500 : Nat) ≠ 200 := by
  decide

/-- C4 amended: malformed JSON yields 400; a structurally valid JSON
body that is not an object yields 500; a valid JSON object returns
success iff the dispatched handling raises no uncaught exception, and
an uncaught downstream exception yields 500. -/
theorem receive_webhook_amended (nt : String) (b : Bool) :
    receive_webhook ParsedBody.invalid b = 400 ∧
    receive_webhook ParsedBody.nonObject b = 500 ∧
    (receive_webhook (ParsedBody.jsonObject nt) b = 200 ↔
      ¬((nt = "ItemAdded" ∨ nt = "PlaybackStop") ∧ b = true)) := by
  refine ⟨rfl, rfl, ?_⟩
  rw [receive_webhook]
  split
  · next h => simp [h]
  · next h => simp [h]

/-- C5: when the grouping key has an archived section of exactly that
name (the archived-section lookup returns one), the run unarchives it
— a task is only ever created after the unarchive succeeded, and
`get_or_create_section` is never consulted, so no duplicate section
can be created — and a failed unarchive aborts the whole run with no
further side effect. -/
theorem item_added_unarchive_first (e : WebhookEvent) (env : AddEnv) (sid : String)
    (hid : truthy (extractItemId e) = true)
    (harch : env.archivedLookup = some sid) :
    (handle_item_added e env).unarchiveCalled = true ∧
    (handle_item_added e env).getOrCreateCalled = false ∧
    ((handle_item_added e env).taskCreated = true → env.unarchiveOk = true) ∧
    (env.unarchiveOk = false →
      handle_item_added e env = { noAdd with unarchiveCalled := true }) := by
  obtain ⟨al, uo, gcr, ati, so⟩ := env
  simp only at harch
  subst harch
  cases uo with
  | false => simp [handle_item_added, hid, noAdd]
  | true =>
    simp only [handle_item_added, hid, addTaskAndSave]
    repeat' split
    all_goals simp_all [noAdd]

/-- Witness for C5: an archived section s9 exists and unarchiving
fails, so the run stops after the unarchive attempt. -/
theorem item_added_unarchive_first_witness :
    (handle_item_added evAdd envUnarchFail).unarchiveCalled = true ∧
    handle_item_added evAdd envUnarchFail = { noAdd with unarchiveCalled := true } := by
  have h := item_added_unarchive_first evAdd envUnarchFail "s9" (by decide) rfl
  exact ⟨h.1, h.2.2.2 rfl⟩

/-- C7: when both time fields parse, the playback-stop workflow treats
the playback as finished iff `|runtime - position|` is at most 60
seconds, and an event whose difference exceeds 60 seconds is ignored
outright: no lookup, no completion attempt, no archival. -/
theorem playback_finish_threshold (e : WebhookEvent) (env : StopEnv) (r p : Int)
    (hrt : e.runTime ≠ []) (hpp : e.playbackPosition ≠ [])
    (hr : parse_time_string e.runTime = some r)
    (hp : parse_time_string e.playbackPosition = some p) :
    (playback_is_completed r p = true ↔ (r - p).natAbs ≤ 60) ∧
    (60 < (r - p).natAbs → handle_playback_stop e env = noStop) := by
  constructor
  · simp [playback_is_completed]
  · intro hgt
    have hnc : playback_is_completed r p = false := by
      simp only [playback_is_completed, decide_eq_false_iff_not]
      omega
    unfold handle_playback_stop
    dsimp only
    rw [if_pos hrt, if_pos hpp, hr, hp]
    simp [hnc]

/-- Witness for C7: RunTime 00:23:35, PlaybackPosition 00:10:00 —
difference 815 seconds, so the event is ignored. -/
theorem playback_finish_threshold_witness :
    handle_playback_stop evFar envAllEmpty = noStop :=
  (playback_finish_threshold evFar envAllEmpty 1415 600
      (by decide) (by decide) (by decide) (by decide)).2 (by decide)

/-- C2 counterexample: with observation sequence (active task, empty,
empty, ...) — the first confirmation check observes an active task in
the section, i.e. the section regained activity during the window —
the workflow still archives the section after the second check,
contradicting the claim that a section some check observes non-empty
is not archived and that archival is abandoned as soon as a check
finds an active task. -/
theorem archive_confirmation_cx :
    envRegain.emptyObs 0 = false ∧
    (handle_playback_stop evNear envRegain).archiveCalls = 1 ∧
    (handle_playback_stop evNear envRegain).emptyChecks = 2 := by
  refine ⟨rfl, rfl, rfl⟩

theorem pollEmpty_found (obs : Nat → Bool) :
    ∀ fuel i : Nat, (pollEmpty obs fuel i).2 = true ↔ ∃ k, k < fuel ∧ obs (i + k) = true := by
  intro fuel
  induction fuel with
  | zero =>
    intro i
    simp [pollEmpty]
  | succ f ih =>
    intro i
    rw [pollEmpty]
    by_cases h : obs i = true
    · rw [if_pos h]
      simp only [true_iff]
      exact ⟨0, by omega, by simpa using h⟩
    · rw [if_neg h]
      dsimp only
      rw [ih (i + 1)]
      constructor
      · rintro ⟨k, hk, hko⟩
        exact ⟨k + 1, by omega, by rwa [show i + (k + 1) = i + 1 + k by omega]⟩
      · rintro ⟨k, hk, hko⟩
        cases k with
        | zero => exact absurd (by simpa using hko) h
        | succ k => exact ⟨k, by omega, by rwa [show i + 1 + k = i + (k + 1) by omega]⟩

/-- C2 amended: once the playback-stop workflow reaches the
confirmation loop (task completed, section resolved), it archives the
section exactly once iff some check among the up-to-five observes the
section empty — the loop stops at the first empty observation and
archives even if an earlier check observed an active task; archival is
abandoned only when all five checks observe an active task. A section
that is empty for the whole window is archived exactly once. -/
theorem archive_confirmation_amended (e : WebhookEvent) (env : StopEnv) (r p : Int)
    (tid sid sname : String)
    (hrt : e.runTime ≠ []) (hpp : e.playbackPosition ≠ [])
    (hr : parse_time_string e.runTime = some r)
    (hp : parse_time_string e.playbackPosition = some p)
    (hfin : playback_is_completed r p = true)
    (hid : truthy (extractItemId e) = true)
    (hmap : env.mappingLookup = some tid)
    (hclose : env.completeOutcome = some true)
    (hsok : env.sectionsOk = true)
    (hfind : env.sections.find? (fun s => s.2 = eventSeries e) = some (sid, sname)) :
    (handle_playback_stop e env).archiveCalls ≤ 1 ∧
    ((handle_playback_stop e env).archiveCalls = 1 ↔
      ∃ k, k < 5 ∧ env.emptyObs k = true) := by
  obtain ⟨ml, so, xs, co, obs, ao⟩ := env
  simp only at hmap hclose hsok hfind
  subst hmap
  subst hclose
  subst hsok
  unfold handle_playback_stop
  dsimp only
  rw [if_pos hrt, if_pos hpp, hr, hp]
  simp only [hfin, hid, hfind]
  have hz : ∀ k, (0 + k) = k := fun k => Nat.zero_add k
  by_cases hpe : (pollEmpty obs 5 0).2 = true
  · simp only [hpe, if_true]
    refine ⟨by simp, fun _ => ?_, fun _ => rfl⟩
    obtain ⟨k, hk, hko⟩ := (pollEmpty_found obs 5 0).mp hpe
    exact ⟨k, hk, by simpa [hz] using hko⟩
  · simp only [hpe, if_false]
    refine ⟨by simp [noStop], ?_, ?_⟩
    · intro h
      simp [noStop] at h
    · rintro ⟨k, hk, hko⟩
      exact absurd ((pollEmpty_found obs 5 0).mpr ⟨k, hk, by simpa [hz] using hko⟩) hpe

/-- Witness for C2 (amended): every check observes the section empty,
and the section is archived exactly once. -/
theorem archive_confirmation_amended_witness :
    (handle_playback_stop evNear envAllEmpty).archiveCalls = 1 :=
  (archive_confirmation_amended evNear envAllEmpty 1415 1380 "td1" "s1" "Show"
      (by decide) (by decide) (by decide) (by decide) (by decide) (by decide)
      rfl rfl rfl rfl).2.mpr ⟨0, by omega, rfl⟩

/-! # Helper lemmas: section reordering -/

theorem sortedSections_perm (secs : List TSection) (tasks : List TTask)
    (front : Option String) : List.Perm (sortedSections secs tasks front) secs :=
  List.perm_insertionSort _ _

theorem sortedSections_sorted (secs : List TSection) (tasks : List TTask)
    (front : Option String) :
    (sortedSections secs tasks front).Sorted (secLE tasks front) :=
  List.sorted_insertionSort _ _

theorem sortedSections_map_id_perm (secs : List TSection) (tasks : List TTask)
    (front : Option String) :
    ((sortedSections secs tasks front).map TSection.id).Perm (secs.map TSection.id) :=
  (sortedSections_perm secs tasks front).map _

theorem sortedSections_map_id_nodup (secs : List TSection) (tasks : List TTask)
    (front : Option String) (h : (secs.map TSection.id).Nodup) :
    ((sortedSections secs tasks front).map TSection.id).Nodup :=
  ((sortedSections_map_id_perm secs tasks front).nodup_iff).mpr h

theorem mem_sortedSections {secs : List TSection} {tasks : List TTask}
    {front : Option String} {s : TSection} :
    s ∈ sortedSections secs tasks front ↔ s ∈ secs :=
  (sortedSections_perm secs tasks front).mem_iff

theorem indexOf_getElem_of_nodup (l : List String) (h : l.Nodup) (i : Nat)
    (hi : i < l.length) : l.indexOf l[i] = i := by
  have hmem : l[i] ∈ l := List.getElem_mem hi
  have hlt : l.indexOf l[i] < l.length := List.indexOf_lt_length.mpr hmem
  exact (List.Nodup.getElem_inj_iff h).mp (List.getElem_indexOf hlt)

theorem getElem_eq_of_id_eq (l : List TSection) (hnd : (l.map TSection.id).Nodup)
    {s : TSection} (hs : s ∈ l) (i : Nat) (hi : i < l.length) (hid : l[i].id = s.id) :
    l[i] = s := by
  obtain ⟨j, hj, hje⟩ := List.mem_iff_getElem.mp hs
  have hmi : (l.map TSection.id).get ⟨i, by simpa using hi⟩
      = (l.map TSection.id).get ⟨j, by simpa using hj⟩ := by
    rw [List.get_eq_getElem, List.get_eq_getElem, List.getElem_map, List.getElem_map, hje, hid]
  rw [List.get_eq_getElem, List.get_eq_getElem] at hmi
  have hij : i = j := (List.Nodup.getElem_inj_iff hnd).mp hmi
  subst hij
  exact hje

theorem idIndex_getElem (l : List TSection) (hnd : (l.map TSection.id).Nodup)
    {s : TSection} (hs : s ∈ l) :
    ∃ hi : (l.map TSection.id).indexOf s.id < l.length,
      l[(l.map TSection.id).indexOf s.id] = s := by
  have hmem : s.id ∈ l.map TSection.id := List.mem_map_of_mem _ hs
  have hlt0 : (l.map TSection.id).indexOf s.id < (l.map TSection.id).length :=
    List.indexOf_lt_length.mpr hmem
  have hlt : (l.map TSection.id).indexOf s.id < l.length := by simpa using hlt0
  have hid : l[(l.map TSection.id).indexOf s.id].id = s.id := by
    have hh := List.getElem_indexOf hlt0
    rwa [List.getElem_map] at hh
  exact ⟨hlt, getElem_eq_of_id_eq l hnd hs _ hlt hid⟩

theorem rankOf_lt_of_key_lt (secs : List TSection) (tasks : List TTask)
    (front : Option String) (hnodup : (secs.map TSection.id).Nodup)
    {s t : TSection} (hs : s ∈ secs) (ht : t ∈ secs)
    (hk : sortKey tasks front s < sortKey tasks front t) :
    rankOf secs tasks front s.id < rankOf secs tasks front t.id := by
  have hnd := sortedSections_map_id_nodup secs tasks front hnodup
  obtain ⟨hi, hie⟩ := idIndex_getElem _ hnd (mem_sortedSections.mpr hs)
  obtain ⟨hj, hje⟩ := idIndex_getElem _ hnd (mem_sortedSections.mpr ht)
  rw [rankOf, rankOf]
  have hne : ((sortedSections secs tasks front).map TSection.id).indexOf s.id
      ≠ ((sortedSections secs tasks front).map TSection.id).indexOf t.id := by
    intro he
    have hst : s = t := by
      simp only [he] at hie
      rw [← hie]
      exact hje
    rw [hst] at hk
    exact lt_irrefl _ hk
  have hnlt : ¬ ((sortedSections secs tasks front).map TSection.id).indexOf t.id
      < ((sortedSections secs tasks front).map TSection.id).indexOf s.id := by
    intro hlt
    have hrel := (sortedSections_sorted secs tasks front).rel_get_of_lt
      (a := ⟨_, hj⟩) (b := ⟨_, hi⟩) hlt
    rw [List.get_eq_getElem, List.get_eq_getElem] at hrel
    simp only at hrel
    rw [hie, hje] at hrel
    exact absurd hrel (not_le_of_lt hk)
  omega

theorem rankOf_getElem_sorted (secs : List TSection) (tasks : List TTask)
    (front : Option String) (hnodup : (secs.map TSection.id).Nodup) (i : Nat)
    (hi : i < (sortedSections secs tasks front).length) :
    rankOf secs tasks front ((sortedSections secs tasks front)[i].id) = i + 1 := by
  have hnd := sortedSections_map_id_nodup secs tasks front hnodup
  rw [rankOf]
  have hme : ((sortedSections secs tasks front).map TSection.id).get ⟨i, by simpa using hi⟩
      = (sortedSections secs tasks front)[i].id := by
    rw [List.get_eq_getElem, List.getElem_map]
  rw [← hme, List.get_eq_getElem, indexOf_getElem_of_nodup _ hnd i (by simpa using hi)]

theorem mem_reorderUpdates (secs : List TSection) (tasks : List TTask)
    (front : Option String) {sid : String} {r : Nat} :
    (sid, r) ∈ reorderUpdates secs tasks front ↔
      ∃ i, ∃ hi : i < (sortedSections secs tasks front).length,
        (sortedSections secs tasks front)[i].id = sid ∧ r = i + 1 ∧
        (sortedSections secs tasks front)[i].order ≠ ((i + 1 : Nat) : Int) := by
  rw [reorderUpdates]
  constructor
  · intro hmem
    rw [List.mem_map] at hmem
    obtain ⟨p, hp, hpe⟩ := hmem
    rw [List.mem_filter] at hp
    obtain ⟨hpenum, hcond⟩ := hp
    obtain ⟨k, hk, hke⟩ := List.mem_iff_getElem.mp hpenum
    rw [List.getElem_enum] at hke
    have hkl : k < (sortedSections secs tasks front).length := by simpa using hk
    subst hke
    simp only [decide_eq_true_eq] at hcond
    simp only [Prod.mk.injEq] at hpe
    exact ⟨k, hkl, hpe.1, hpe.2.symm, hcond⟩
  · rintro ⟨i, hi, hid, hr, hord⟩
    rw [List.mem_map]
    refine ⟨(i, (sortedSections secs tasks front)[i]), ?_, by rw [hid, hr]⟩
    rw [List.mem_filter]
    refine ⟨?_, by simpa using hord⟩
    rw [List.mem_iff_getElem]
    exact ⟨i, by simpa using hi, by rw [List.getElem_enum]⟩

theorem sortKey_lt_of_front (tasks : List TTask) (f : String) {s t : TSection}
    (hsf : s.id = f) (hfne : f ≠ "") (htf : t.id ≠ f) :
    sortKey tasks (some f) s < sortKey tasks (some f) t := by
  rw [sortKey, sortKey, Prod.Lex.lt_iff]
  left
  simp only
  rw [frontRank, frontRank, if_pos ⟨hfne, hsf⟩, if_neg (fun hc => htf hc.2)]
  omega

theorem sortKey_lt_of_empty (tasks : List TTask) (front : Option String) {s t : TSection}
    (hfs : frontRank front s.id = 0) (hft : frontRank front t.id = 0)
    (hs1 : hasTaskIn tasks s.id = true) (ht1 : hasTaskIn tasks t.id = false) :
    sortKey tasks front s < sortKey tasks front t := by
  rw [sortKey, sortKey, Prod.Lex.lt_iff]
  right
  refine ⟨?_, ?_⟩
  · simp only
    rw [hfs, hft]
  · simp only
    rw [Prod.Lex.lt_iff]
    left
    simp only
    rw [emptyRank, emptyRank, if_pos hs1, if_neg (by simp [ht1])]
    omega

theorem sortKey_lt_of_latest (tasks : List TTask) (front : Option String) {s t : TSection}
    (hfs : frontRank front s.id = 0) (hft : frontRank front t.id = 0)
    (he : emptyRank tasks s.id = emptyRank tasks t.id)
    (hl : latestIn tasks t.id < latestIn tasks s.id) :
    sortKey tasks front s < sortKey tasks front t := by
  rw [sortKey, sortKey, Prod.Lex.lt_iff]
  right
  refine ⟨?_, ?_⟩
  · simp only
    rw [hfs, hft]
  · simp only
    rw [Prod.Lex.lt_iff]
    right
    refine ⟨?_, ?_⟩
    · simp only
      rw [he]
    · simp only
      omega

/-- C1: on a project snapshot with distinct section ids, the reorder
pass ranks the sections 1..N — the designated front section (when
given and present) first; among the rest every section holding an
active task before every section holding none; within equal emptiness
the section with the later most-recent task creation time first —
issues an order update exactly for the sections whose current order
differs from the assigned rank, and returns true iff at least one
update was issued (each issued update being applied, as modelled). -/
theorem reorder_sections_spec (secs : List TSection) (tasks : List TTask)
    (front : Option String) (hnodup : (secs.map TSection.id).Nodup) :
    ((sortedSections secs tasks front).map TSection.id).Perm (secs.map TSection.id) ∧
    (∀ s ∈ secs, 1 ≤ rankOf secs tasks front s.id ∧
      rankOf secs tasks front s.id ≤ secs.length) ∧
    (∀ f : String, front = some f → f ≠ "" → f ∈ secs.map TSection.id →
      rankOf secs tasks front f = 1) ∧
    (∀ s ∈ secs, ∀ t ∈ secs,
      frontRank front s.id = 0 → frontRank front t.id = 0 →
      hasTaskIn tasks s.id = true → hasTaskIn tasks t.id = false →
      rankOf secs tasks front s.id < rankOf secs tasks front t.id) ∧
    (∀ s ∈ secs, ∀ t ∈ secs,
      frontRank front s.id = 0 → frontRank front t.id = 0 →
      emptyRank tasks s.id = emptyRank tasks t.id →
      latestIn tasks t.id < latestIn tasks s.id →
      rankOf secs tasks front s.id < rankOf secs tasks front t.id) ∧
    (∀ s ∈ secs,
      ((s.id, rankOf secs tasks front s.id) ∈ reorderUpdates secs tasks front ↔
        s.order ≠ (rankOf secs tasks front s.id : Int))) ∧
    (∀ u ∈ reorderUpdates secs tasks front,
      u.1 ∈ secs.map TSection.id ∧ u.2 = rankOf secs tasks front u.1) ∧
    (reorder_sections secs tasks front = true ↔
      ∃ s ∈ secs, s.order ≠ (rankOf secs tasks front s.id : Int)) := by
  have hnd := sortedSections_map_id_nodup secs tasks front hnodup
  refine ⟨sortedSections_map_id_perm secs tasks front, ?_, ?_, ?_, ?_, ?_, ?_, ?_⟩
  · -- ranks lie in 1..N
    intro s hs
    obtain ⟨hi, _⟩ := idIndex_getElem _ hnd (mem_sortedSections.mpr hs)
    have hlen : (sortedSections secs tasks front).length = secs.length :=
      (sortedSections_perm secs tasks front).length_eq
    rw [rankOf]
    omega
  · -- the front section ranks first
    intro f hf hfne hfmem
    subst hf
    obtain ⟨sf, hsfmem, hsfid⟩ := List.mem_map.mp hfmem
    obtain ⟨hi, hie⟩ := idIndex_getElem _ hnd (mem_sortedSections.mpr hsfmem)
    have hidx0 : ((sortedSections secs tasks (some f)).map TSection.id).indexOf sf.id = 0 := by
      by_contra hne0
      have h0lt : 0 < ((sortedSections secs tasks (some f)).map TSection.id).indexOf sf.id :=
        Nat.pos_of_ne_zero hne0
      have hl0 : 0 < (sortedSections secs tasks (some f)).length := lt_trans h0lt hi
      have hid0 : (sortedSections secs tasks (some f))[0].id ≠ f := by
        intro heid
        have hme0 : ((sortedSections secs tasks (some f)).map TSection.id).get
              ⟨0, by simpa using hl0⟩
            = ((sortedSections secs tasks (some f)).map TSection.id).get
              ⟨((sortedSections secs tasks (some f)).map TSection.id).indexOf sf.id,
                by simpa using hi⟩ := by
          rw [List.get_eq_getElem, List.get_eq_getElem, List.getElem_map, List.getElem_map,
            hie, heid, hsfid]
        rw [List.get_eq_getElem, List.get_eq_getElem] at hme0
        exact hne0 ((List.Nodup.getElem_inj_iff hnd).mp hme0).symm
      have hkey : sortKey tasks (some f) sf
          < sortKey tasks (some f) ((sortedSections secs tasks (some f))[0]) :=
        sortKey_lt_of_front tasks f hsfid hfne hid0
      have hrel := (sortedSections_sorted secs tasks (some f)).rel_get_of_lt
        (a := ⟨0, hl0⟩) (b := ⟨_, hi⟩) h0lt
      rw [List.get_eq_getElem, List.get_eq_getElem] at hrel
      simp only at hrel
      rw [hie] at hrel
      exact absurd hrel (not_le_of_lt hkey)
    rw [hsfid] at hidx0
    rw [rankOf, hidx0]
  · -- non-empty sections precede empty ones among the rest
    intro s hs t ht hfs hft hs1 ht1
    exact rankOf_lt_of_key_lt secs tasks front hnodup hs ht
      (sortKey_lt_of_empty tasks front hfs hft hs1 ht1)
  · -- within equal emptiness, the more recently active section first
    intro s hs t ht hfs hft he hl
    exact rankOf_lt_of_key_lt secs tasks front hnodup hs ht
      (sortKey_lt_of_latest tasks front hfs hft he hl)
  · -- an update is issued exactly for a section whose order is off
    intro s hs
    obtain ⟨hi, hie⟩ := idIndex_getElem _ hnd (mem_sortedSections.mpr hs)
    constructor
    · intro hmem
      obtain ⟨j, hj, hjid, hjr, hjord⟩ := (mem_reorderUpdates secs tasks front).mp hmem
      have hje : (sortedSections secs tasks front)[j] = s :=
        getElem_eq_of_id_eq _ hnd (mem_sortedSections.mpr hs) j hj hjid
      have hrj : rankOf secs tasks front s.id = j + 1 := by
        rw [← hjid, rankOf_getElem_sorted secs tasks front hnodup j hj]
      rw [hrj, ← hje]
      exact hjord
    · intro hord
      apply (mem_reorderUpdates secs tasks front).mpr
      have hrk : rankOf secs tasks front s.id
          = ((sortedSections secs tasks front).map TSection.id).indexOf s.id + 1 := rfl
      refine ⟨_, hi, by rw [hie], by rw [hrk], ?_⟩
      rw [hie, ← hrk]
      exact hord
  · -- every issued update names a section and carries its rank
    rintro ⟨u1, u2⟩ hu
    obtain ⟨j, hj, hjid, hjr, _⟩ := (mem_reorderUpdates secs tasks front).mp hu
    constructor
    · rw [← hjid]
      exact List.mem_map_of_mem _
        (mem_sortedSections.mp (List.getElem_mem hj))
    · rw [hjr, ← hjid, rankOf_getElem_sorted secs tasks front hnodup j hj]
  · -- the return value
    rw [reorder_sections]
    split
    · next hsecs =>
      subst hsecs
      simp
    · next hsecs =>
      rw [Bool.not_eq_true']
      rw [List.isEmpty_eq_false]
      constructor
      · intro hne
        obtain ⟨u, hu⟩ := List.exists_mem_of_ne_nil _ hne
        obtain ⟨u1, u2⟩ := u
        obtain ⟨j, hj, hjid, hjr, hjord⟩ := (mem_reorderUpdates secs tasks front).mp hu
        refine ⟨(sortedSections secs tasks front)[j],
          mem_sortedSections.mp (List.getElem_mem hj), ?_⟩
        rw [rankOf_getElem_sorted secs tasks front hnodup j hj]
        exact hjord
      · rintro ⟨s, hs, hord⟩
        obtain ⟨hi, hie⟩ := idIndex_getElem _ hnd (mem_sortedSections.mpr hs)
        apply List.ne_nil_of_mem (a := (s.id, rankOf secs tasks front s.id))
        apply (mem_reorderUpdates secs tasks front).mpr
        have hrk : rankOf secs tasks front s.id
            = ((sortedSections secs tasks front).map TSection.id).indexOf s.id + 1 := rfl
        refine ⟨_, hi, by rw [hie], by rw [hrk], ?_⟩
        rw [hie, ← hrk]
        exact hord

/-- Witness for C1 at the spec's front-forcing example: sections A
(one task), B (two tasks, the most recent), C (none), front B — B
ranks 1, A precedes C, and the pass reports that updates were
applied. -/
theorem reorder_sections_spec_witness :
    rankOf secsW tasksW (some "B") "B" = 1 ∧
    rankOf secsW tasksW (some "B") "A" < rankOf secsW tasksW (some "B") "C" ∧
    reorder_sections secsW tasksW (some "B") = true := by
  have h := reorder_sections_spec secsW tasksW (some "B") (by decide)
  refine ⟨h.2.2.1 "B" rfl (by decide) (by decide), ?_, ?_⟩
  · exact h.2.2.2.1 ⟨"A", 1⟩ (by decide) ⟨"C", 3⟩ (by decide) (by decide) (by decide)
      (by decide) (by decide)
  · exact h.2.2.2.2.2.2.2.mpr ⟨⟨"A", 1⟩, by decide, by decide⟩

/-! # Helper lemmas: idempotence of the reorder pass -/

theorem orderedInsert_map {α : Type} (r : α → α → Prop) [DecidableRel r]
    (f : α → α) (hf : ∀ a b, r (f a) (f b) ↔ r a b) (a : α) :
    ∀ l : List α, List.orderedInsert r (f a) (l.map f) = (List.orderedInsert r a l).map f
  | [] => by simp
  | b :: l => by
    by_cases h : r a b
    · simp only [List.map_cons, List.orderedInsert, if_pos h, if_pos ((hf a b).mpr h)]
    · simp only [List.map_cons, List.orderedInsert, if_neg h,
        if_neg (fun hc => h ((hf a b).mp hc)), orderedInsert_map r f hf a l]

theorem insertionSort_map {α : Type} (r : α → α → Prop) [DecidableRel r]
    (f : α → α) (hf : ∀ a b, r (f a) (f b) ↔ r a b) :
    ∀ l : List α, List.insertionSort r (l.map f) = (List.insertionSort r l).map f
  | [] => rfl
  | b :: l => by
    simp only [List.map_cons, List.insertionSort, insertionSort_map r f hf l]
    exact orderedInsert_map r f hf b _

theorem updFn_id (ups : List (String × Nat)) (s : TSection) : (updFn ups s).id = s.id := by
  rw [updFn]
  split <;> rfl

theorem sortKey_updFn (tasks : List TTask) (front : Option String)
    (ups : List (String × Nat)) (s : TSection) :
    sortKey tasks front (updFn ups s) = sortKey tasks front s := by
  rw [sortKey, sortKey, updFn_id]

theorem secLE_updFn_iff (tasks : List TTask) (front : Option String)
    (ups : List (String × Nat)) (a b : TSection) :
    secLE tasks front (updFn ups a) (updFn ups b) ↔ secLE tasks front a b := by
  rw [secLE, secLE, sortKey_updFn, sortKey_updFn]

theorem lookup_eq_some_of_mem {β : Type} :
    ∀ (l : List (String × β)), (l.map Prod.fst).Nodup →
      ∀ {k : String} {v : β}, (k, v) ∈ l → l.lookup k = some v
  | [], _, _, _, h => absurd h (List.not_mem_nil _)
  | (k', v') :: rest, hnd, k, v, h => by
    rw [List.map_cons, List.nodup_cons] at hnd
    rcases List.mem_cons.mp h with he | hm
    · injection he with h1 h2
      subst h1
      subst h2
      exact List.lookup_cons_self
    · have hkmem : k ∈ rest.map Prod.fst := by
        rw [List.mem_map]
        exact ⟨(k, v), hm, rfl⟩
      have hkne : (k == k') = false := by
        have hne : k ≠ k' := fun he2 => hnd.1 (he2 ▸ hkmem)
        simp [hne]
      rw [List.lookup_cons, hkne]
      exact lookup_eq_some_of_mem rest hnd.2 hm

theorem lookup_eq_none_of_not_mem {β : Type} :
    ∀ (l : List (String × β)) {k : String}, k ∉ l.map Prod.fst → l.lookup k = none
  | [], _, _ => rfl
  | (k', v') :: rest, k, h => by
    rw [List.map_cons, List.mem_cons] at h
    push_neg at h
    have hkne : (k == k') = false := by simp [h.1]
    rw [List.lookup_cons, hkne]
    exact lookup_eq_none_of_not_mem rest h.2

theorem reorderUpdates_keys_sublist (secs : List TSection) (tasks : List TTask)
    (front : Option String) :
    List.Sublist ((reorderUpdates secs tasks front).map Prod.fst)
      ((sortedSections secs tasks front).map TSection.id) := by
  rw [reorderUpdates, List.map_map]
  have h3 : (sortedSections secs tasks front).enum.map
        (fun p : Nat × TSection => p.2.id)
      = (sortedSections secs tasks front).map TSection.id := by
    rw [show (fun p : Nat × TSection => p.2.id)
        = TSection.id ∘ Prod.snd from rfl, ← List.map_map, List.enum_map_snd]
  rw [← h3]
  exact (List.filter_sublist _).map _

theorem reorderUpdates_keys_nodup (secs : List TSection) (tasks : List TTask)
    (front : Option String) (hnodup : (secs.map TSection.id).Nodup) :
    ((reorderUpdates secs tasks front).map Prod.fst).Nodup :=
  List.Nodup.sublist (reorderUpdates_keys_sublist secs tasks front)
    (sortedSections_map_id_nodup secs tasks front hnodup)

theorem lookup_reorderUpdates (secs : List TSection) (tasks : List TTask)
    (front : Option String) (hnodup : (secs.map TSection.id).Nodup) (i : Nat)
    (hi : i < (sortedSections secs tasks front).length) :
    (reorderUpdates secs tasks front).lookup ((sortedSections secs tasks front)[i].id)
      = if (sortedSections secs tasks front)[i].order ≠ ((i + 1 : Nat) : Int)
        then some (i + 1) else none := by
  by_cases ho : (sortedSections secs tasks front)[i].order ≠ ((i + 1 : Nat) : Int)
  · rw [if_pos ho]
    exact lookup_eq_some_of_mem _ (reorderUpdates_keys_nodup secs tasks front hnodup)
      ((mem_reorderUpdates secs tasks front).mpr ⟨i, hi, rfl, rfl, ho⟩)
  · rw [if_neg ho]
    apply lookup_eq_none_of_not_mem
    intro hmem
    rw [List.mem_map] at hmem
    obtain ⟨u, hu, hue⟩ := hmem
    obtain ⟨u1, u2⟩ := u
    obtain ⟨j, hj, hjid, hjr, hjord⟩ := (mem_reorderUpdates secs tasks front).mp hu
    have heq : ((sortedSections secs tasks front).map TSection.id).get ⟨j, by simpa using hj⟩
        = ((sortedSections secs tasks front).map TSection.id).get ⟨i, by simpa using hi⟩ := by
      rw [List.get_eq_getElem, List.get_eq_getElem, List.getElem_map, List.getElem_map, hjid]
      exact hue
    rw [List.get_eq_getElem, List.get_eq_getElem] at heq
    have hji : j = i :=
      (List.Nodup.getElem_inj_iff (sortedSections_map_id_nodup secs tasks front hnodup)).mp heq
    subst hji
    exact ho hjord

/-- C8: with the first pass's order updates applied to the snapshot
and no intervening task or section changes, a second reorder pass
issues no order update and returns false. -/
theorem reorder_sections_idempotent (secs : List TSection) (tasks : List TTask)
    (front : Option String) (hnodup : (secs.map TSection.id).Nodup) :
    reorderUpdates (applyUpdates secs (reorderUpdates secs tasks front)) tasks front = [] ∧
    reorder_sections (applyUpdates secs (reorderUpdates secs tasks front)) tasks front
      = false := by
  have hsorted' :
      sortedSections (applyUpdates secs (reorderUpdates secs tasks front)) tasks front
        = (sortedSections secs tasks front).map (updFn (reorderUpdates secs tasks front)) := by
    rw [applyUpdates, sortedSections, sortedSections]
    exact insertionSort_map _ _ (secLE_updFn_iff tasks front _) secs
  have hupd :
      reorderUpdates (applyUpdates secs (reorderUpdates secs tasks front)) tasks front
        = [] := by
    rw [reorderUpdates, hsorted', List.map_eq_nil_iff, List.filter_eq_nil_iff]
    intro p hp
    obtain ⟨k, hk, hke⟩ := List.mem_iff_getElem.mp hp
    rw [List.getElem_enum] at hke
    subst hke
    have hk' : k < (sortedSections secs tasks front).length := by simpa using hk
    simp only [decide_eq_true_eq, List.getElem_map, not_not]
    rw [updFn, lookup_reorderUpdates secs tasks front hnodup k hk']
    by_cases ho : (sortedSections secs tasks front)[k].order ≠ ((k + 1 : Nat) : Int)
    · rw [if_pos ho]
    · rw [if_neg ho]
      push_neg at ho
      exact ho
  refine ⟨hupd, ?_⟩
  rw [reorder_sections]
  split
  · rfl
  · rw [hupd]
    rfl

/-- Witness for C8 at the front-forcing example snapshot. -/
theorem reorder_sections_idempotent_witness :
    reorderUpdates (applyUpdates secsW (reorderUpdates secsW tasksW (some "B"))) tasksW
      (some "B") = [] ∧
    reorder_sections (applyUpdates secsW (reorderUpdates secsW tasksW (some "B"))) tasksW
      (some "B") = false :=
  reorder_sections_idempotent secsW tasksW (some "B") (by decide)

end JellyTodo
